import Mathlib

/-! The macro surface of `board.h` and `riot-all.h`.

The repository consists of two C header files that are fed to a C preprocessor
when bindings are generated.  The two files are embedded below line by line,
together with the fragment of the C preprocessor that gives them a meaning:
comment removal, recognition of directives, and the effect of directives on the
macro table.  All statements further down are about the result of running this
preprocessor on the embedded text.

The fragment covers line splicing, comments, `#include`, `#define` (object-like
and function-like), `#undef`, `#ifdef`, `#ifndef`, `#else`, `#endif` and the null
directive.  Conditions of `#if` and `#elif` are not evaluated, text lines are
not expanded, string and character literals are not read as single tokens, and
every other directive is refused where it would be carried out.  The headers
named by `#include` lines are not part of the two files; their effect on the
macro table is a parameter of the preprocessor.
-/

namespace Cpp

/-! ## Source text -/

/-- Text of `board.h`, one entry per line (every line ends in a newline). -/
def board_h : List String :=
  [ "/** A board file for Rust's board-generic riot-sys crate that overrides",
    " * everything that a board could do differently to be nonsentical. That would",
    " * never build as a C file, but hopefully things like UART_STDIO_DEV are",
    " * irrelevant to the Rust API anyway. */",
    "",
    "#define UART_STDIO_DEV irrelevant",
    "#define UART_STDIO_BAUDRATE irrelevant",
    "#define UART_STDIO_RX_BUFSIZE irrelevant",
    "" ]

/-- Text of `riot-all.h`, one entry per line (the last line has no newline). -/
def riot_all_h : List String :=
  [ "#include <shell.h>",
    "#include <thread.h>",
    "#include <stdio_base.h>",
    "#include <periph/i2c.h>",
    "#include <net/gnrc.h>",
    "#include <net/gnrc/udp.h>",
    "#include <net/gnrc/pktbuf.h>",
    "#include <net/gnrc/ipv6.h>",
    "#include <net/gnrc/nettype.h>",
    "#include <net/gnrc/netapi.h>",
    "#include <saul.h>",
    "#include <saul_reg.h>",
    "",
    "#ifndef I2C_COUNT",
    "#define I2C_COUNT 0",
    "#endif" ]

/-- Lines 14 to 16 of `riot-all.h`: the directives of the file that are not
`#include` lines. -/
def riot_all_own : List String := riot_all_h.drop 13

/-! ## Lexical structure -/

/-- Horizontal white space inside a line: space, tab, vertical tab, form feed,
carriage return. -/
def isBlank (c : Char) : Bool :=
  c.toNat = 32 || c.toNat = 9 || c.toNat = 11 || c.toNat = 12 || c.toNat = 13

/-- Characters of an identifier or of a preprocessing number. -/
def isWordChar (c : Char) : Bool :=
  c.isAlphanum || c = '_'

/-- Characters of a file: every line followed by a newline character (the end
of the file ends the last line even where the file has no final newline). -/
def fileChars (src : List String) : List Char :=
  src.flatMap (fun l => l.toList ++ [Char.ofNat 10])

/-- Line splicing: a backslash directly before a newline is deleted together
with the newline. -/
def spliceLines : List Char → List Char
  | [] => []
  | c :: cs =>
    match cs with
    | [] => [c]
    | d :: ds =>
      if c.toNat = 92 ∧ d.toNat = 10 then spliceLines ds
      else c :: spliceLines (d :: ds)

/-- Position of the comment scanner. -/
inductive Mode where
  | code
  | block
  | line
  deriving DecidableEq, Repr

/-- Removal of comments: every comment is replaced by one space.  A block
comment swallows the newlines inside it, a line comment ends before the
newline.  The flag of the result tells whether a block comment is still open at
the end of the text. -/
def stripComments : Mode → List Char → List Char × Bool
  | m, [] => ([], m = .block)
  | .block, c :: cs =>
    match cs with
    | [] => ([], true)
    | d :: ds =>
      if c = '*' ∧ d = '/' then
        let r := stripComments .code ds
        (' ' :: r.1, r.2)
      else stripComments .block (d :: ds)
  | .line, c :: cs =>
    if c.toNat = 10 then
      let r := stripComments .code cs
      (c :: r.1, r.2)
    else stripComments .line cs
  | .code, c :: cs =>
    match cs with
    | [] => ([c], false)
    | d :: ds =>
      if c = '/' ∧ d = '*' then stripComments .block ds
      else if c = '/' ∧ d = '/' then
        let r := stripComments .line ds
        (' ' :: r.1, r.2)
      else
        let r := stripComments .code (d :: ds)
        (c :: r.1, r.2)

/-- Division of a text into lines at the newline characters.  `cur` holds the
characters of the line being read, last one first. -/
def splitLines : List Char → List Char → List (List Char)
  | [], cur => if cur.isEmpty then [] else [cur.reverse]
  | c :: cs, cur =>
    if c.toNat = 10 then cur.reverse :: splitLines cs []
    else splitLines cs (c :: cur)

/-- Kinds of preprocessing tokens that are told apart. -/
inductive TokKind where
  | ident
  | number
  | punct
  deriving DecidableEq, Repr

/-- A preprocessing token, with the information whether white space separates
it from the token before it. -/
structure Token where
  kind : TokKind
  text : String
  spaced : Bool
  deriving DecidableEq, Repr

/-- Add the token under construction, if any, to the tokens read so far. -/
def flush (cur : Option Token) (acc : List Token) : List Token :=
  match cur with
  | none => acc
  | some t => t :: acc

/-- Tokens of a piece of a line, read left to right.  `cur` is the identifier or
number under construction, `sp` tells whether white space was skipped since the
last token, `acc` holds the finished tokens, last one first.  A word starting
with a digit is a number, any other word an identifier, every other character a
punctuator of its own. -/
def lexGo : List Char → Option Token → Bool → List Token → List Token
  | [], cur, _, acc => (flush cur acc).reverse
  | c :: cs, cur, sp, acc =>
    if isBlank c then lexGo cs none true (flush cur acc)
    else if isWordChar c then
      match cur with
      | some t => lexGo cs (some { t with text := t.text.push c }) false acc
      | none =>
        lexGo cs (some ⟨if c.isDigit then .number else .ident, String.singleton c, sp⟩)
          false acc
    else
      lexGo cs none false (⟨.punct, String.singleton c, sp⟩ :: flush cur acc)

/-- Tokens of a piece of a line. -/
def lex (cs : List Char) : List Token :=
  lexGo cs none false []

/-- Tokens of a replacement list: white space before the first token is not
part of the list. -/
def lexBody (cs : List Char) : List Token :=
  match lex cs with
  | [] => []
  | t :: ts => { t with spaced := false } :: ts

/-- Read a word at the start of the text, after white space; the result is the
word and the text after it. -/
def readWord (cs : List Char) : List Char × List Char :=
  (cs.dropWhile isBlank).span isWordChar

/-- A word is a name when it is not empty and does not start with a digit. -/
def isName (w : List Char) : Bool :=
  match w with
  | [] => false
  | c :: _ => !c.isDigit

/-! ## Directives -/

/-- Definition of a macro: the parameter names of a function-like macro, or
`none` for an object-like macro, and the replacement list. -/
structure Macro where
  params : Option (List String)
  body : List Token
  deriving DecidableEq, Repr

/-- Lines of a source file after directive recognition. -/
inductive Directive where
  | incl (angled : Bool) (header : String)
  | define (name : String) (m : Macro)
  | undefine (name : String)
  | ifDefined (name : String)
  | ifNotDefined (name : String)
  | ifExpr
  | elifExpr
  | elseD
  | endif
  | null
  | text (tokens : List Token)
  | invalid (line : String)
  deriving DecidableEq, Repr

/-- Operand of `#include`: a header name between angle brackets or between
double quotes. -/
def parseInclude (line rest : List Char) : Directive :=
  match rest.dropWhile isBlank with
  | [] => .invalid (String.mk line)
  | c :: cs =>
    if c = '<' then
      match cs.span (fun x => x != '>') with
      | (h, _ :: _) => .incl true (String.mk h)
      | (_, []) => .invalid (String.mk line)
    else if c.toNat = 34 then
      match cs.span (fun x => x.toNat != 34) with
      | (h, _ :: _) => .incl false (String.mk h)
      | (_, []) => .invalid (String.mk line)
    else .invalid (String.mk line)

/-- Operand of `#define`: the macro name, a parameter list when an opening
parenthesis follows the name directly, and the replacement list. -/
def parseDefine (line rest : List Char) : Directive :=
  match readWord rest with
  | (w, after) =>
    if isName w then
      match after with
      | [] => .define (String.mk w) ⟨none, []⟩
      | c :: cs =>
        if c = '(' then
          match cs.span (fun x => x != ')') with
          | (ps, _ :: body) =>
            .define (String.mk w)
              ⟨some (((lex ps).filter (fun t => t.kind = .ident)).map Token.text),
                lexBody body⟩
          | (_, []) => .invalid (String.mk line)
        else .define (String.mk w) ⟨none, lexBody (c :: cs)⟩
    else .invalid (String.mk line)

/-- Operand of `#undef`, `#ifdef` and `#ifndef`: one name. -/
def parseName (line rest : List Char) (k : String → Directive) : Directive :=
  match readWord rest with
  | (w, _) => if isName w then k (String.mk w) else .invalid (String.mk line)

/-- Recognition of one comment-free line.  Blank lines give `none`, a line
whose first character after white space is `#` is a directive, every other line
is text.  A directive with a name outside the fragment is an invalid line. -/
def parseLine (line : List Char) : Option Directive :=
  match line.dropWhile isBlank with
  | [] => none
  | c :: cs =>
    if c = '#' then
      match readWord cs with
      | (w, rest) =>
        if w.isEmpty then
          (if rest.isEmpty then some .null else some (.invalid (String.mk line)))
        else if String.mk w = "include" then some (parseInclude line rest)
        else if String.mk w = "define" then some (parseDefine line rest)
        else if String.mk w = "undef" then some (parseName line rest .undefine)
        else if String.mk w = "ifdef" then some (parseName line rest .ifDefined)
        else if String.mk w = "ifndef" then some (parseName line rest .ifNotDefined)
        else if String.mk w = "if" then some .ifExpr
        else if String.mk w = "elif" then some .elifExpr
        else if String.mk w = "else" then some .elseD
        else if String.mk w = "endif" then some .endif
        else some (.invalid (String.mk line))
    else some (.text (lex (c :: cs)))

/-- Directives and text lines of a file, in order.  A comment that is still
open at the end of the file gives a final invalid line. -/
def parseFile (src : List String) : List Directive :=
  match stripComments .code (spliceLines (fileChars src)) with
  | (cs, openComment) =>
    (splitLines cs []).filterMap parseLine ++ (if openComment then [.invalid "/*"] else [])

/-! ## Macro table and directive processing -/

/-- The macro table: the current definition of every name, if it has one. -/
abbrev MacroTable := String → Option Macro

/-- The table without any definition. -/
def MacroTable.empty : MacroTable := fun _ => none

/-- The table with `n` bound to `m`. -/
def MacroTable.set (t : MacroTable) (n : String) (m : Macro) : MacroTable :=
  fun x => if x = n then some m else t x

/-- The table with the definition of `n` removed. -/
def MacroTable.erase (t : MacroTable) (n : String) : MacroTable :=
  fun x => if x = n then none else t x

/-- Diagnostics that end preprocessing. -/
inductive PPError where
  | redefinition (name : String)
  | unbalanced (directive : String)
  | unterminated
  | invalidDirective (line : String)
  | unsupported (directive : String)
  | header (name : String)
  deriving DecidableEq, Repr

/-- Effect of the headers named by `#include` lines on the macro table.  The
headers themselves are not part of the two files. -/
abbrev HeaderEnv := String → MacroTable → Except PPError MacroTable

/-- Headers that leave the macro table as it is. -/
def inertHeaders : HeaderEnv := fun _ t => .ok t

/-- One open conditional: is its current group processed, has one of its groups
been selected, has its `#else` been seen. -/
structure Frame where
  active : Bool
  taken : Bool
  sawElse : Bool
  deriving DecidableEq, Repr

/-- State of the preprocessor: the macro table, the open conditionals (innermost
first) and the names of the `#define` directives carried out so far. -/
structure PPState where
  table : MacroTable
  conds : List Frame
  performed : List String

/-- Lines are processed when every open conditional is in a processed group. -/
def live (conds : List Frame) : Bool :=
  match conds with
  | [] => true
  | f :: _ => f.active

/-- Open a conditional whose condition has the value `c`. -/
def PPState.push (s : PPState) (c : Bool) : PPState :=
  { s with conds := ⟨live s.conds && c, live s.conds && c, false⟩ :: s.conds }

/-- Effect of one line.  In a skipped group only the nesting of conditionals is
followed.  A `#define` of a name that is already defined is accepted when the
new definition is identical to the current one and is an error otherwise.
Conditions of `#if` and `#elif` are not evaluated: where their value is needed
processing stops with `unsupported`. -/
def step (H : HeaderEnv) (s : PPState) : Directive → Except PPError PPState
  | .ifDefined n => .ok (s.push (s.table n).isSome)
  | .ifNotDefined n => .ok (s.push (s.table n).isNone)
  | .ifExpr => if live s.conds then .error (.unsupported "if") else .ok (s.push false)
  | .elifExpr =>
    match s.conds with
    | [] => .error (.unbalanced "elif")
    | f :: fs =>
      if f.sawElse then .error (.unbalanced "elif")
      else if live fs && !f.taken then .error (.unsupported "elif")
      else .ok { s with conds := ⟨false, f.taken, false⟩ :: fs }
  | .elseD =>
    match s.conds with
    | [] => .error (.unbalanced "else")
    | f :: fs =>
      if f.sawElse then .error (.unbalanced "else")
      else .ok { s with conds := ⟨live fs && !f.taken, true, true⟩ :: fs }
  | .endif =>
    match s.conds with
    | [] => .error (.unbalanced "endif")
    | _ :: fs => .ok { s with conds := fs }
  | .define n m =>
    if live s.conds then
      match s.table n with
      | none => .ok { s with table := s.table.set n m, performed := s.performed ++ [n] }
      | some old =>
        if old = m then .ok { s with performed := s.performed ++ [n] }
        else .error (.redefinition n)
    else .ok s
  | .undefine n =>
    if live s.conds then .ok { s with table := s.table.erase n } else .ok s
  | .incl _ h =>
    if live s.conds then
      match H h s.table with
      | .ok t => .ok { s with table := t }
      | .error e => .error e
    else .ok s
  | .null => .ok s
  | .text _ => .ok s
  | .invalid l => if live s.conds then .error (.invalidDirective l) else .ok s

/-- Effect of a sequence of lines; the first error ends processing. -/
def runDirectives (H : HeaderEnv) : List Directive → PPState → Except PPError PPState
  | [], s => .ok s
  | d :: ds, s =>
    match step H s d with
    | .ok s1 => runDirectives H ds s1
    | .error e => .error e

/-- Processing of a whole file from a given macro table: no conditional is open
at the start and none may be open at the end. -/
def runFile (H : HeaderEnv) (src : List String) (t : MacroTable) : Except PPError PPState :=
  match runDirectives H (parseFile src) ⟨t, [], []⟩ with
  | .ok s => if s.conds.isEmpty then .ok s else .error .unterminated
  | .error e => .error e

/-- Macro table after a file has been processed. -/
def preprocess (H : HeaderEnv) (src : List String) (t : MacroTable) :
    Except PPError MacroTable :=
  match runFile H src t with
  | .ok s => .ok s.table
  | .error e => .error e

/-- Names of the `#define` directives carried out while a file is processed,
in order. -/
def definesPerformed (H : HeaderEnv) (src : List String) (t : MacroTable) :
    Except PPError (List String) :=
  match runFile H src t with
  | .ok s => .ok s.performed
  | .error e => .error e

/-- Processing of one file and then of another, from the table the first one
leaves. -/
def preprocessThen (H : HeaderEnv) (first second : List String) (t : MacroTable) :
    Except PPError MacroTable :=
  match preprocess H first t with
  | .ok t1 => preprocess H second t1
  | .error e => .error e

/-! ## Names and definitions that occur in the two files -/

/-- The object-like macro whose replacement list is the identifier `irrelevant`. -/
def irrelevantMacro : Macro := ⟨none, [⟨.ident, "irrelevant", false⟩]⟩

/-- The object-like macro whose replacement list is the number `0`. -/
def zeroMacro : Macro := ⟨none, [⟨.number, "0", false⟩]⟩

/-- The three names `board.h` is concerned with. -/
def uartNames : List String :=
  ["UART_STDIO_DEV", "UART_STDIO_BAUDRATE", "UART_STDIO_RX_BUFSIZE"]

/-- Headers named by the `#include` lines of a file, in order. -/
def includedHeaders (src : List String) : List String :=
  (parseFile src).filterMap (fun d =>
    match d with
    | .incl _ h => some h
    | _ => none)

/-- Names of the `#define` lines of a file, in order. -/
def definedNames (src : List String) : List String :=
  (parseFile src).filterMap (fun d =>
    match d with
    | .define n _ => some n
    | _ => none)

/-- Lines that are `#include`, `#undef` or part of a conditional. -/
def Directive.isIncludeUndefOrConditional : Directive → Bool
  | .incl _ _ => true
  | .undefine _ => true
  | .ifDefined _ => true
  | .ifNotDefined _ => true
  | .ifExpr => true
  | .elifExpr => true
  | .elseD => true
  | .endif => true
  | _ => false

/-- The headers named in `hs` can be included from every macro table and leave
the definition of the name `n` as it is. -/
def HeadersKeep (H : HeaderEnv) (hs : List String) (n : String) : Prop :=
  ∀ h ∈ hs, ∀ t : MacroTable, ∃ t1, H h t = .ok t1 ∧ t1 n = t n

/-- The table `board.h` leaves when it is processed without conflict. -/
def boardTable (t : MacroTable) : MacroTable :=
  ((t.set "UART_STDIO_DEV" irrelevantMacro).set "UART_STDIO_BAUDRATE"
    irrelevantMacro).set "UART_STDIO_RX_BUFSIZE" irrelevantMacro

/-! ## Groups of headers -/

/-- The groups of declarations the interface description names for the
included headers. -/
inductive HeaderGroup where
  | shell
  | threading
  | stdio
  | i2c
  | gnrc
  | saul
  deriving DecidableEq, Repr

/-- Does the path start with the given text. -/
def startsWith (path start : String) : Bool :=
  start.toList.isPrefixOf path.toList

/-- Group of a header path, following the wording of the specification, which
names six groups of declarations: shell, threading, stdio, I2C, networking
(gnrc stack), and the sensor/actuator abstraction layer (saul).  A path outside
these groups has no group. -/
def specGroupOfHeader (path : String) : Option HeaderGroup :=
  if path = "shell.h" then some .shell
  else if path = "thread.h" then some .threading
  else if startsWith path "stdio" then some .stdio
  else if path = "periph/i2c.h" then some .i2c
  else if startsWith path "net/gnrc" then some .gnrc
  else if startsWith path "saul" then some .saul
  else none

/-! ## Parsed form of the two files -/

set_option maxRecDepth 100000 in
theorem parseFile_board_h :
    parseFile board_h =
      [ .define "UART_STDIO_DEV" irrelevantMacro,
        .define "UART_STDIO_BAUDRATE" irrelevantMacro,
        .define "UART_STDIO_RX_BUFSIZE" irrelevantMacro ] := by
  decide

set_option maxRecDepth 100000 in
theorem parseFile_riot_all_own :
    parseFile riot_all_own =
      [ .ifNotDefined "I2C_COUNT", .define "I2C_COUNT" zeroMacro, .endif ] := by
  decide

set_option maxRecDepth 100000 in
theorem includedHeaders_riot_all_h :
    includedHeaders riot_all_h =
      [ "shell.h", "thread.h", "stdio_base.h", "periph/i2c.h", "net/gnrc.h",
        "net/gnrc/udp.h", "net/gnrc/pktbuf.h", "net/gnrc/ipv6.h",
        "net/gnrc/nettype.h", "net/gnrc/netapi.h", "saul.h", "saul_reg.h" ] := by
  decide

set_option maxRecDepth 100000 in
theorem parseFile_riot_all_h :
    parseFile riot_all_h =
      (includedHeaders riot_all_h).map (Directive.incl true) ++ parseFile riot_all_own := by
  decide

/-! ## Processing of single lines at the top level -/

theorem MacroTable.set_of_bound {t : MacroTable} {n : String} {m : Macro}
    (h : t n = some m) : t.set n m = t := by
  funext x
  unfold MacroTable.set
  split_ifs with hx
  · rw [hx, h]
  · rfl

theorem runDirectives_define (H : HeaderEnv) (t : MacroTable) (p : List String)
    (n : String) (m : Macro) (ds : List Directive) :
    runDirectives H (.define n m :: ds) ⟨t, [], p⟩ =
      if t n = none ∨ t n = some m then runDirectives H ds ⟨t.set n m, [], p ++ [n]⟩
      else .error (.redefinition n) := by
  cases h : t n with
  | none => simp [runDirectives, step, live, h]
  | some old =>
    by_cases hm : old = m
    · subst hm
      simp [runDirectives, step, live, h, MacroTable.set_of_bound h]
    · simp [runDirectives, step, live, h, hm]

theorem runFile_board_h (H : HeaderEnv) (t : MacroTable) :
    runFile H board_h t =
      if t "UART_STDIO_DEV" = none ∨ t "UART_STDIO_DEV" = some irrelevantMacro then
        if t "UART_STDIO_BAUDRATE" = none ∨ t "UART_STDIO_BAUDRATE" = some irrelevantMacro then
          if t "UART_STDIO_RX_BUFSIZE" = none ∨
              t "UART_STDIO_RX_BUFSIZE" = some irrelevantMacro then
            .ok ⟨boardTable t, [], uartNames⟩
          else .error (.redefinition "UART_STDIO_RX_BUFSIZE")
        else .error (.redefinition "UART_STDIO_BAUDRATE")
      else .error (.redefinition "UART_STDIO_DEV") := by
  unfold runFile
  rw [parseFile_board_h, runDirectives_define]
  by_cases h1 : t "UART_STDIO_DEV" = none ∨ t "UART_STDIO_DEV" = some irrelevantMacro
  · rw [if_pos h1, if_pos h1, runDirectives_define]
    have e2 : (t.set "UART_STDIO_DEV" irrelevantMacro) "UART_STDIO_BAUDRATE" =
        t "UART_STDIO_BAUDRATE" := by
      simp [MacroTable.set]
    rw [e2]
    by_cases h2 : t "UART_STDIO_BAUDRATE" = none ∨
        t "UART_STDIO_BAUDRATE" = some irrelevantMacro
    · rw [if_pos h2, if_pos h2, runDirectives_define]
      have e3 : ((t.set "UART_STDIO_DEV" irrelevantMacro).set "UART_STDIO_BAUDRATE"
          irrelevantMacro) "UART_STDIO_RX_BUFSIZE" = t "UART_STDIO_RX_BUFSIZE" := by
        simp [MacroTable.set]
      rw [e3]
      by_cases h3 : t "UART_STDIO_RX_BUFSIZE" = none ∨
          t "UART_STDIO_RX_BUFSIZE" = some irrelevantMacro
      · rw [if_pos h3, if_pos h3]
        simp [runDirectives, uartNames, boardTable]
      · rw [if_neg h3, if_neg h3]
    · rw [if_neg h2, if_neg h2]
  · rw [if_neg h1, if_neg h1]

theorem runFile_riot_all_own (H : HeaderEnv) (t : MacroTable) :
    runFile H riot_all_own t =
      .ok ⟨if t "I2C_COUNT" = none then t.set "I2C_COUNT" zeroMacro else t, [],
        if t "I2C_COUNT" = none then ["I2C_COUNT"] else []⟩ := by
  unfold runFile
  rw [parseFile_riot_all_own]
  cases h : t "I2C_COUNT" with
  | none => simp [runDirectives, step, live, PPState.push, h]
  | some m => simp [runDirectives, step, live, PPState.push, h]

theorem runDirectives_includes (H : HeaderEnv) (n : String) (ds : List Directive)
    (p : List String) (hs : List String) (hH : HeadersKeep H hs n) (t : MacroTable) :
    ∃ t1, t1 n = t n ∧
      runDirectives H (hs.map (Directive.incl true) ++ ds) ⟨t, [], p⟩ =
        runDirectives H ds ⟨t1, [], p⟩ := by
  induction hs generalizing t with
  | nil => exact ⟨t, rfl, rfl⟩
  | cons h hs ih =>
    obtain ⟨t1, h1, k1⟩ := hH h (List.mem_cons_self h hs) t
    obtain ⟨t2, h2, k2⟩ := ih (fun x hx => hH x (List.mem_cons_of_mem h hx)) t1
    refine ⟨t2, by rw [h2, k1], ?_⟩
    rw [← k2]
    simp [runDirectives, step, live, h1]

theorem runDirectives_inert_includes (ds : List Directive) (p : List String)
    (hs : List String) (t : MacroTable) :
    runDirectives inertHeaders (hs.map (Directive.incl true) ++ ds) ⟨t, [], p⟩ =
      runDirectives inertHeaders ds ⟨t, [], p⟩ := by
  induction hs with
  | nil => rfl
  | cons h hs ih =>
    rw [← ih]
    simp [runDirectives, step, live, inertHeaders]

theorem runFile_riot_all_h_inert (t : MacroTable) :
    runFile inertHeaders riot_all_h t = runFile inertHeaders riot_all_own t := by
  unfold runFile
  rw [parseFile_riot_all_h, runDirectives_inert_includes]

theorem runFile_riot_all_h (H : HeaderEnv) (n : String)
    (hH : HeadersKeep H (includedHeaders riot_all_h) n) (t : MacroTable) :
    ∃ t1, t1 n = t n ∧ runFile H riot_all_h t = runFile H riot_all_own t1 := by
  obtain ⟨t1, h1, k1⟩ :=
    runDirectives_includes H n (parseFile riot_all_own) [] (includedHeaders riot_all_h) hH t
  refine ⟨t1, h1, ?_⟩
  unfold runFile
  rw [parseFile_riot_all_h, k1]

theorem preprocess_riot_all_own (H : HeaderEnv) (t : MacroTable) :
    preprocess H riot_all_own t =
      .ok (if t "I2C_COUNT" = none then t.set "I2C_COUNT" zeroMacro else t) := by
  unfold preprocess
  rw [runFile_riot_all_own]

theorem preprocess_riot_all_h_inert (t : MacroTable) :
    preprocess inertHeaders riot_all_h t =
      .ok (if t "I2C_COUNT" = none then t.set "I2C_COUNT" zeroMacro else t) := by
  unfold preprocess
  rw [runFile_riot_all_h_inert, runFile_riot_all_own]

theorem boardFree_iff (t : MacroTable) :
    (∀ n ∈ uartNames, t n = none ∨ t n = some irrelevantMacro) ↔
      (t "UART_STDIO_DEV" = none ∨ t "UART_STDIO_DEV" = some irrelevantMacro) ∧
      (t "UART_STDIO_BAUDRATE" = none ∨ t "UART_STDIO_BAUDRATE" = some irrelevantMacro) ∧
      (t "UART_STDIO_RX_BUFSIZE" = none ∨
        t "UART_STDIO_RX_BUFSIZE" = some irrelevantMacro) := by
  simp [uartNames]

theorem runFile_board_h_of_free (H : HeaderEnv) (t : MacroTable)
    (h : ∀ n ∈ uartNames, t n = none ∨ t n = some irrelevantMacro) :
    runFile H board_h t = .ok ⟨boardTable t, [], uartNames⟩ := by
  obtain ⟨h1, h2, h3⟩ := (boardFree_iff t).1 h
  rw [runFile_board_h, if_pos h1, if_pos h2, if_pos h3]

theorem preprocess_board_h_of_free (H : HeaderEnv) (t : MacroTable)
    (h : ∀ n ∈ uartNames, t n = none ∨ t n = some irrelevantMacro) :
    preprocess H board_h t = .ok (boardTable t) := by
  unfold preprocess
  rw [runFile_board_h_of_free H t h]

theorem preprocess_board_h_ok (H : HeaderEnv) (t t1 : MacroTable)
    (h : preprocess H board_h t = .ok t1) :
    (∀ n ∈ uartNames, t n = none ∨ t n = some irrelevantMacro) ∧ t1 = boardTable t := by
  unfold preprocess at h
  rw [runFile_board_h] at h
  by_cases h1 : t "UART_STDIO_DEV" = none ∨ t "UART_STDIO_DEV" = some irrelevantMacro
  · by_cases h2 : t "UART_STDIO_BAUDRATE" = none ∨
        t "UART_STDIO_BAUDRATE" = some irrelevantMacro
    · by_cases h3 : t "UART_STDIO_RX_BUFSIZE" = none ∨
          t "UART_STDIO_RX_BUFSIZE" = some irrelevantMacro
      · rw [if_pos h1, if_pos h2, if_pos h3] at h
        refine ⟨(boardFree_iff t).2 ⟨h1, h2, h3⟩, ?_⟩
        simp only [Except.ok.injEq] at h
        exact h.symm
      · rw [if_pos h1, if_pos h2, if_neg h3] at h
        simp at h
    · rw [if_pos h1, if_neg h2] at h
      simp at h
  · rw [if_neg h1] at h
    simp at h

theorem preprocess_board_h_conflict (H : HeaderEnv) (t : MacroTable)
    (h : ¬ ∀ n ∈ uartNames, t n = none ∨ t n = some irrelevantMacro) :
    ∃ n ∈ uartNames, preprocess H board_h t = .error (.redefinition n) := by
  unfold preprocess
  rw [runFile_board_h]
  by_cases h1 : t "UART_STDIO_DEV" = none ∨ t "UART_STDIO_DEV" = some irrelevantMacro
  · by_cases h2 : t "UART_STDIO_BAUDRATE" = none ∨
        t "UART_STDIO_BAUDRATE" = some irrelevantMacro
    · by_cases h3 : t "UART_STDIO_RX_BUFSIZE" = none ∨
          t "UART_STDIO_RX_BUFSIZE" = some irrelevantMacro
      · exact absurd ((boardFree_iff t).2 ⟨h1, h2, h3⟩) h
      · rw [if_pos h1, if_pos h2, if_neg h3]
        exact ⟨"UART_STDIO_RX_BUFSIZE", by simp [uartNames], rfl⟩
    · rw [if_pos h1, if_neg h2]
      exact ⟨"UART_STDIO_BAUDRATE", by simp [uartNames], rfl⟩
  · rw [if_neg h1]
    exact ⟨"UART_STDIO_DEV", by simp [uartNames], rfl⟩

theorem boardTable_uart (t : MacroTable) (n : String) (hn : n ∈ uartNames) :
    boardTable t n = some irrelevantMacro := by
  simp only [uartNames, List.mem_cons, List.mem_singleton, List.not_mem_nil, or_false] at hn
  rcases hn with h | h | h <;> subst h <;> simp [boardTable, MacroTable.set]

theorem boardTable_other (t : MacroTable) (n : String) (hn : n ∉ uartNames) :
    boardTable t n = t n := by
  simp only [uartNames, List.mem_cons, List.mem_singleton, List.not_mem_nil, or_false,
    not_or] at hn
  obtain ⟨h1, h2, h3⟩ := hn
  simp [boardTable, MacroTable.set, h1, h2, h3]

theorem boardTable_default_comm (t : MacroTable) :
    (if boardTable t "I2C_COUNT" = none then (boardTable t).set "I2C_COUNT" zeroMacro
      else boardTable t) =
    boardTable (if t "I2C_COUNT" = none then t.set "I2C_COUNT" zeroMacro else t) := by
  have e : boardTable t "I2C_COUNT" = t "I2C_COUNT" :=
    boardTable_other t "I2C_COUNT" (by decide)
  rw [e]
  by_cases ht : t "I2C_COUNT" = none
  · rw [if_pos ht, if_pos ht]
    funext x
    simp only [boardTable, MacroTable.set]
    split_ifs <;> simp_all
  · rw [if_neg ht, if_neg ht]

theorem default_free (t : MacroTable)
    (h : ∀ n ∈ uartNames, t n = none ∨ t n = some irrelevantMacro) :
    ∀ n ∈ uartNames,
      (if t "I2C_COUNT" = none then t.set "I2C_COUNT" zeroMacro else t) n = none ∨
      (if t "I2C_COUNT" = none then t.set "I2C_COUNT" zeroMacro else t) n =
        some irrelevantMacro := by
  intro n hn
  have ne : n ≠ "I2C_COUNT" := by
    intro e
    subst e
    revert hn
    decide
  have e : (if t "I2C_COUNT" = none then t.set "I2C_COUNT" zeroMacro else t) n = t n := by
    by_cases ht : t "I2C_COUNT" = none
    · simp [ht, MacroTable.set, ne]
    · simp [ht]
  rw [e]
  exact h n hn

/-! ## The conditional default of `I2C_COUNT` -/

/-- C1: processing `riot-all.h` from any macro table gives `I2C_COUNT` the
value `0` when the table had no definition of it, and leaves `I2C_COUNT` bound
to exactly its earlier definition otherwise, whatever that definition is.  This
holds for lines 14 to 16 on their own, and for the whole file whenever the
included headers can be processed and leave `I2C_COUNT` alone. -/
theorem riot_all_h_I2C_COUNT_default (H : HeaderEnv)
    (hH : HeadersKeep H (includedHeaders riot_all_h) "I2C_COUNT") (t : MacroTable) :
    (∃ t1, preprocess H riot_all_h t = .ok t1 ∧
      (t "I2C_COUNT" = none → t1 "I2C_COUNT" = some ⟨none, [⟨.number, "0", false⟩]⟩) ∧
      (∀ m, t "I2C_COUNT" = some m → t1 "I2C_COUNT" = some m)) ∧
    (∃ t1, preprocess H riot_all_own t = .ok t1 ∧
      (t "I2C_COUNT" = none → t1 "I2C_COUNT" = some ⟨none, [⟨.number, "0", false⟩]⟩) ∧
      (∀ m, t "I2C_COUNT" = some m → t1 "I2C_COUNT" = some m)) := by
  have own : ∀ u : MacroTable, ∃ t1, preprocess H riot_all_own u = .ok t1 ∧
      (u "I2C_COUNT" = none → t1 "I2C_COUNT" = some ⟨none, [⟨.number, "0", false⟩]⟩) ∧
      (∀ m, u "I2C_COUNT" = some m → t1 "I2C_COUNT" = some m) := by
    intro u
    refine ⟨_, preprocess_riot_all_own H u, ?_, ?_⟩
    · intro hu
      simp [hu, MacroTable.set, zeroMacro]
    · intro m hu
      simp [hu]
  refine ⟨?_, own t⟩
  obtain ⟨t0, h0, k0⟩ := runFile_riot_all_h H "I2C_COUNT" hH t
  obtain ⟨t1, h1, hnone, hsome⟩ := own t0
  refine ⟨t1, ?_, ?_, ?_⟩
  · unfold preprocess at h1 ⊢
    rw [k0]
    exact h1
  · intro ht
    exact hnone (by rw [h0, ht])
  · intro m ht
    exact hsome m (by rw [h0, ht])

/-- Witness for C1: with headers that leave the table alone, an earlier
definition of `I2C_COUNT` with an empty replacement list is kept. -/
theorem riot_all_h_I2C_COUNT_default_witness :
    HeadersKeep inertHeaders (includedHeaders riot_all_h) "I2C_COUNT" ∧
    ((∃ t1, preprocess inertHeaders riot_all_h
        (MacroTable.empty.set "I2C_COUNT" ⟨none, []⟩) = .ok t1 ∧
      ((MacroTable.empty.set "I2C_COUNT" ⟨none, []⟩) "I2C_COUNT" = none →
        t1 "I2C_COUNT" = some ⟨none, [⟨.number, "0", false⟩]⟩) ∧
      (∀ m, (MacroTable.empty.set "I2C_COUNT" ⟨none, []⟩) "I2C_COUNT" = some m →
        t1 "I2C_COUNT" = some m)) ∧
    (∃ t1, preprocess inertHeaders riot_all_own
        (MacroTable.empty.set "I2C_COUNT" ⟨none, []⟩) = .ok t1 ∧
      ((MacroTable.empty.set "I2C_COUNT" ⟨none, []⟩) "I2C_COUNT" = none →
        t1 "I2C_COUNT" = some ⟨none, [⟨.number, "0", false⟩]⟩) ∧
      (∀ m, (MacroTable.empty.set "I2C_COUNT" ⟨none, []⟩) "I2C_COUNT" = some m →
        t1 "I2C_COUNT" = some m))) :=
  ⟨fun _ _ t => ⟨t, rfl, rfl⟩,
    riot_all_h_I2C_COUNT_default inertHeaders (fun _ _ t => ⟨t, rfl, rfl⟩)
      (MacroTable.empty.set "I2C_COUNT" ⟨none, []⟩)⟩

/-- C2: from every macro table, processing `riot-all.h` twice in a row (the
headers leaving the table alone) succeeds both times, so no conflicting
redefinition of `I2C_COUNT` is reported, the table after the second pass is
the table after the first, and the second pass carries out no `#define`.  The
same holds for lines 14 to 16 on their own under any headers. -/
theorem riot_all_h_twice (H : HeaderEnv) (t : MacroTable) :
    (∃ t1, preprocess inertHeaders riot_all_h t = .ok t1 ∧
      preprocess inertHeaders riot_all_h t1 = .ok t1 ∧
      preprocessThen inertHeaders riot_all_h riot_all_h t =
        preprocess inertHeaders riot_all_h t ∧
      definesPerformed inertHeaders riot_all_h t1 = .ok []) ∧
    (∃ t1, preprocess H riot_all_own t = .ok t1 ∧
      preprocess H riot_all_own t1 = .ok t1 ∧
      preprocessThen H riot_all_own riot_all_own t = preprocess H riot_all_own t ∧
      definesPerformed H riot_all_own t1 = .ok []) := by
  have key : ∀ u : MacroTable,
      (if u "I2C_COUNT" = none then u.set "I2C_COUNT" zeroMacro else u) "I2C_COUNT" ≠ none := by
    intro u
    by_cases hu : u "I2C_COUNT" = none
    · simp [hu, MacroTable.set]
    · simp [hu]
  constructor
  · refine ⟨_, preprocess_riot_all_h_inert t, ?_, ?_, ?_⟩
    · rw [preprocess_riot_all_h_inert, if_neg (key t)]
    · unfold preprocessThen
      rw [preprocess_riot_all_h_inert]
      simp only
      rw [preprocess_riot_all_h_inert, if_neg (key t)]
    · unfold definesPerformed
      rw [runFile_riot_all_h_inert, runFile_riot_all_own]
      simp only
      rw [if_neg (key t)]
  · refine ⟨_, preprocess_riot_all_own H t, ?_, ?_, ?_⟩
    · rw [preprocess_riot_all_own, if_neg (key t)]
    · unfold preprocessThen
      rw [preprocess_riot_all_own]
      simp only
      rw [preprocess_riot_all_own, if_neg (key t)]
    · unfold definesPerformed
      rw [runFile_riot_all_own]
      simp only
      rw [if_neg (key t)]

/-- C6: lines 14 to 16 of `riot-all.h` change no macro other than
`I2C_COUNT`: for every macro table and every other name, the binding of the
name after processing is its binding before.  The same holds for the whole
file when the included headers leave the table alone. -/
theorem riot_all_h_frame (H : HeaderEnv) (t : MacroTable) (n : String)
    (hn : n ≠ "I2C_COUNT") :
    (∃ t1, preprocess H riot_all_own t = .ok t1 ∧ t1 n = t n) ∧
    (∃ t1, preprocess inertHeaders riot_all_h t = .ok t1 ∧ t1 n = t n) := by
  have key : (if t "I2C_COUNT" = none then t.set "I2C_COUNT" zeroMacro else t) n = t n := by
    by_cases ht : t "I2C_COUNT" = none
    · simp [ht, MacroTable.set, hn]
    · simp [ht]
  exact ⟨⟨_, preprocess_riot_all_own H t, key⟩, ⟨_, preprocess_riot_all_h_inert t, key⟩⟩

/-- Witness for C6: a definition of `UART_STDIO_DEV` made before `riot-all.h`
is processed is still there afterwards. -/
theorem riot_all_h_frame_witness :
    "UART_STDIO_DEV" ≠ "I2C_COUNT" ∧
    ((∃ t1, preprocess inertHeaders riot_all_own
        (MacroTable.empty.set "UART_STDIO_DEV" irrelevantMacro) = .ok t1 ∧
      t1 "UART_STDIO_DEV" =
        (MacroTable.empty.set "UART_STDIO_DEV" irrelevantMacro) "UART_STDIO_DEV") ∧
    (∃ t1, preprocess inertHeaders riot_all_h
        (MacroTable.empty.set "UART_STDIO_DEV" irrelevantMacro) = .ok t1 ∧
      t1 "UART_STDIO_DEV" =
        (MacroTable.empty.set "UART_STDIO_DEV" irrelevantMacro) "UART_STDIO_DEV")) :=
  ⟨by decide,
    riot_all_h_frame inertHeaders (MacroTable.empty.set "UART_STDIO_DEV" irrelevantMacro)
      "UART_STDIO_DEV" (by decide)⟩

/-! ## The three definitions of `board.h` -/

/-- C3: after `board.h` is processed from a table in which none of
`UART_STDIO_DEV`, `UART_STDIO_BAUDRATE` and `UART_STDIO_RX_BUFSIZE` is defined,
each of the three is an object-like macro whose replacement list is the single
identifier `irrelevant`. -/
theorem board_h_defines_irrelevant (H : HeaderEnv) (t : MacroTable)
    (h1 : t "UART_STDIO_DEV" = none) (h2 : t "UART_STDIO_BAUDRATE" = none)
    (h3 : t "UART_STDIO_RX_BUFSIZE" = none) :
    ∃ t1, preprocess H board_h t = .ok t1 ∧
      t1 "UART_STDIO_DEV" = some ⟨none, [⟨.ident, "irrelevant", false⟩]⟩ ∧
      t1 "UART_STDIO_BAUDRATE" = some ⟨none, [⟨.ident, "irrelevant", false⟩]⟩ ∧
      t1 "UART_STDIO_RX_BUFSIZE" = some ⟨none, [⟨.ident, "irrelevant", false⟩]⟩ := by
  have free : ∀ n ∈ uartNames, t n = none ∨ t n = some irrelevantMacro :=
    (boardFree_iff t).2 ⟨Or.inl h1, Or.inl h2, Or.inl h3⟩
  refine ⟨_, preprocess_board_h_of_free H t free, ?_, ?_, ?_⟩
  · exact boardTable_uart t _ (by simp [uartNames])
  · exact boardTable_uart t _ (by simp [uartNames])
  · exact boardTable_uart t _ (by simp [uartNames])

/-- Witness for C3: the table without any definition. -/
theorem board_h_defines_irrelevant_witness :
    MacroTable.empty "UART_STDIO_DEV" = none ∧
    MacroTable.empty "UART_STDIO_BAUDRATE" = none ∧
    MacroTable.empty "UART_STDIO_RX_BUFSIZE" = none ∧
    ∃ t1, preprocess inertHeaders board_h MacroTable.empty = .ok t1 ∧
      t1 "UART_STDIO_DEV" = some ⟨none, [⟨.ident, "irrelevant", false⟩]⟩ ∧
      t1 "UART_STDIO_BAUDRATE" = some ⟨none, [⟨.ident, "irrelevant", false⟩]⟩ ∧
      t1 "UART_STDIO_RX_BUFSIZE" = some ⟨none, [⟨.ident, "irrelevant", false⟩]⟩ :=
  ⟨rfl, rfl, rfl, board_h_defines_irrelevant inertHeaders MacroTable.empty rfl rfl rfl⟩

/-- C4: `board.h` defines the three names `UART_STDIO_DEV`,
`UART_STDIO_BAUDRATE`, `UART_STDIO_RX_BUFSIZE` and nothing else: its `#define`
lines name exactly these three, the table after processing agrees with the
table before on every other name, and no line of the file is an `#include`, an
`#undef` or part of a conditional. -/
theorem board_h_frame (H : HeaderEnv) (t t1 : MacroTable) (n : String)
    (h : preprocess H board_h t = .ok t1)
    (hn : n ∉ ["UART_STDIO_DEV", "UART_STDIO_BAUDRATE", "UART_STDIO_RX_BUFSIZE"]) :
    t1 n = t n ∧
    definedNames board_h =
      ["UART_STDIO_DEV", "UART_STDIO_BAUDRATE", "UART_STDIO_RX_BUFSIZE"] ∧
    (parseFile board_h).any Directive.isIncludeUndefOrConditional = false := by
  refine ⟨?_, ?_, ?_⟩
  · rw [(preprocess_board_h_ok H t t1 h).2]
    exact boardTable_other t n hn
  · unfold definedNames
    rw [parseFile_board_h]
    rfl
  · rw [parseFile_board_h]
    rfl

set_option maxRecDepth 100000 in
/-- Witness for C4: from the table without any definition `board.h` is
processed without error and `I2C_COUNT` stays undefined. -/
theorem board_h_frame_witness :
    preprocess inertHeaders board_h MacroTable.empty = .ok (boardTable MacroTable.empty) ∧
    "I2C_COUNT" ∉ ["UART_STDIO_DEV", "UART_STDIO_BAUDRATE", "UART_STDIO_RX_BUFSIZE"] ∧
    (boardTable MacroTable.empty "I2C_COUNT" = MacroTable.empty "I2C_COUNT" ∧
      definedNames board_h =
        ["UART_STDIO_DEV", "UART_STDIO_BAUDRATE", "UART_STDIO_RX_BUFSIZE"] ∧
      (parseFile board_h).any Directive.isIncludeUndefOrConditional = false) :=
  ⟨rfl, by decide,
    board_h_frame inertHeaders MacroTable.empty (boardTable MacroTable.empty) "I2C_COUNT"
      rfl (by decide)⟩

/-- C7: processing `board.h` a second time is harmless: when a first pass
succeeds, a second pass from the resulting table carries out the three
`#define` lines again, each with the replacement list already in force, reports
no conflict and leaves the table as it is.  When one of the three names is
bound to anything other than the object-like macro `irrelevant`, processing
`board.h` stops with a conflicting redefinition of one of the three names. -/
theorem board_h_twice :
    (∀ (H : HeaderEnv) (t t1 : MacroTable), preprocess H board_h t = .ok t1 →
      (∀ n ∈ ["UART_STDIO_DEV", "UART_STDIO_BAUDRATE", "UART_STDIO_RX_BUFSIZE"],
        t1 n = some ⟨none, [⟨.ident, "irrelevant", false⟩]⟩) ∧
      preprocess H board_h t1 = .ok t1 ∧
      preprocessThen H board_h board_h t = preprocess H board_h t ∧
      definesPerformed H board_h t1 =
        .ok ["UART_STDIO_DEV", "UART_STDIO_BAUDRATE", "UART_STDIO_RX_BUFSIZE"]) ∧
    (∀ (H : HeaderEnv) (t : MacroTable) (n : String) (m : Macro),
      n ∈ ["UART_STDIO_DEV", "UART_STDIO_BAUDRATE", "UART_STDIO_RX_BUFSIZE"] →
      t n = some m → m ≠ ⟨none, [⟨.ident, "irrelevant", false⟩]⟩ →
      ∃ k ∈ ["UART_STDIO_DEV", "UART_STDIO_BAUDRATE", "UART_STDIO_RX_BUFSIZE"],
        preprocess H board_h t = .error (.redefinition k)) := by
  constructor
  · intro H t t1 h
    obtain ⟨_, e⟩ := preprocess_board_h_ok H t t1 h
    have bound : ∀ n ∈ uartNames, t1 n = some irrelevantMacro := by
      intro n hn
      rw [e]
      exact boardTable_uart t n hn
    have free : ∀ n ∈ uartNames, t1 n = none ∨ t1 n = some irrelevantMacro :=
      fun n hn => Or.inr (bound n hn)
    have same : boardTable t1 = t1 := by
      unfold boardTable
      rw [MacroTable.set_of_bound (bound _ (by simp [uartNames])),
        MacroTable.set_of_bound (bound _ (by simp [uartNames])),
        MacroTable.set_of_bound (bound _ (by simp [uartNames]))]
    have again : preprocess H board_h t1 = .ok t1 := by
      rw [preprocess_board_h_of_free H t1 free, same]
    refine ⟨bound, again, ?_, ?_⟩
    · unfold preprocessThen
      rw [h]
      exact again
    · unfold definesPerformed
      rw [runFile_board_h_of_free H t1 free]
      rfl
  · intro H t n m hn hb hm
    apply preprocess_board_h_conflict
    intro hfree
    rcases hfree n hn with h0 | h0
    · rw [hb] at h0
      exact Option.noConfusion h0
    · rw [hb] at h0
      exact hm (Option.some.inj h0)

set_option maxRecDepth 100000 in
/-- Witness for C7: a second pass after a pass from the table without any
definition, and a pass from a table that binds `UART_STDIO_DEV` to `0`. -/
theorem board_h_twice_witness :
    preprocess inertHeaders board_h MacroTable.empty = .ok (boardTable MacroTable.empty) ∧
    preprocess inertHeaders board_h (boardTable MacroTable.empty) =
      .ok (boardTable MacroTable.empty) ∧
    "UART_STDIO_DEV" ∈ ["UART_STDIO_DEV", "UART_STDIO_BAUDRATE", "UART_STDIO_RX_BUFSIZE"] ∧
    (MacroTable.empty.set "UART_STDIO_DEV" zeroMacro) "UART_STDIO_DEV" = some zeroMacro ∧
    zeroMacro ≠ ⟨none, [⟨.ident, "irrelevant", false⟩]⟩ ∧
    ∃ k ∈ ["UART_STDIO_DEV", "UART_STDIO_BAUDRATE", "UART_STDIO_RX_BUFSIZE"],
      preprocess inertHeaders board_h (MacroTable.empty.set "UART_STDIO_DEV" zeroMacro) =
        .error (.redefinition k) :=
  ⟨rfl,
    (board_h_twice.1 inertHeaders MacroTable.empty (boardTable MacroTable.empty) rfl).2.1,
    by decide, rfl, by decide,
    board_h_twice.2 inertHeaders (MacroTable.empty.set "UART_STDIO_DEV" zeroMacro)
      "UART_STDIO_DEV" zeroMacro (by decide) rfl (by decide)⟩

/-! ## The headers of `riot-all.h` -/

/-- C5: the headers included by `riot-all.h` are, in order, `shell.h`,
`thread.h`, `stdio_base.h`, `periph/i2c.h`, `net/gnrc.h`, `net/gnrc/udp.h`,
`net/gnrc/pktbuf.h`, `net/gnrc/ipv6.h`, `net/gnrc/nettype.h`,
`net/gnrc/netapi.h`, `saul.h`, `saul_reg.h`; each of them belongs to one of
the six groups shell, threading, stdio, I2C, gnrc networking and saul, and each
of the six groups contains one of them. -/
theorem riot_all_h_headers :
    includedHeaders riot_all_h =
      [ "shell.h", "thread.h", "stdio_base.h", "periph/i2c.h", "net/gnrc.h",
        "net/gnrc/udp.h", "net/gnrc/pktbuf.h", "net/gnrc/ipv6.h",
        "net/gnrc/nettype.h", "net/gnrc/netapi.h", "saul.h", "saul_reg.h" ] ∧
    (∀ h ∈ includedHeaders riot_all_h, (specGroupOfHeader h).isSome = true) ∧
    (∀ g : HeaderGroup, ∃ h ∈ includedHeaders riot_all_h, specGroupOfHeader h = some g) := by
  rw [includedHeaders_riot_all_h]
  refine ⟨rfl, by decide, ?_⟩
  intro g
  cases g
  · exact ⟨"shell.h", by decide, by decide⟩
  · exact ⟨"thread.h", by decide, by decide⟩
  · exact ⟨"stdio_base.h", by decide, by decide⟩
  · exact ⟨"periph/i2c.h", by decide, by decide⟩
  · exact ⟨"net/gnrc.h", by decide, by decide⟩
  · exact ⟨"saul.h", by decide, by decide⟩

/-! ## Order of the two files -/

/-- C8: the effects of `board.h` and of `riot-all.h` on the macro table
commute: from every table on which `board.h` reports no conflict, `board.h`
followed by `riot-all.h` and `riot-all.h` followed by `board.h` both succeed
and leave the same table, for lines 14 to 16 under any headers and for the
whole file under headers that leave the table alone.  From the table without
any definition both orders give exactly `UART_STDIO_DEV`, `UART_STDIO_BAUDRATE`
and `UART_STDIO_RX_BUFSIZE` bound to `irrelevant` and `I2C_COUNT` bound to
`0`. -/
theorem board_h_riot_all_h_commute (H : HeaderEnv) (t t1 : MacroTable)
    (h : preprocess H board_h t = .ok t1) :
    (∃ t2, preprocessThen H board_h riot_all_own t = .ok t2 ∧
      preprocessThen H riot_all_own board_h t = .ok t2) ∧
    (∃ t2, preprocessThen inertHeaders board_h riot_all_h t = .ok t2 ∧
      preprocessThen inertHeaders riot_all_h board_h t = .ok t2) ∧
    preprocessThen inertHeaders board_h riot_all_h MacroTable.empty =
      .ok (fun x =>
        if x ∈ ["UART_STDIO_DEV", "UART_STDIO_BAUDRATE", "UART_STDIO_RX_BUFSIZE"] then
          some ⟨none, [⟨.ident, "irrelevant", false⟩]⟩
        else if x = "I2C_COUNT" then some ⟨none, [⟨.number, "0", false⟩]⟩
        else none) ∧
    preprocessThen inertHeaders riot_all_h board_h MacroTable.empty =
      .ok (fun x =>
        if x ∈ ["UART_STDIO_DEV", "UART_STDIO_BAUDRATE", "UART_STDIO_RX_BUFSIZE"] then
          some ⟨none, [⟨.ident, "irrelevant", false⟩]⟩
        else if x = "I2C_COUNT" then some ⟨none, [⟨.number, "0", false⟩]⟩
        else none) := by
  have free := (preprocess_board_h_ok H t t1 h).1
  have efree : ∀ n ∈ uartNames,
      MacroTable.empty n = none ∨ MacroTable.empty n = some irrelevantMacro :=
    fun _ _ => Or.inl rfl
  have own : ∀ (K : HeaderEnv) (u : MacroTable),
      (∀ n ∈ uartNames, u n = none ∨ u n = some irrelevantMacro) →
      preprocessThen K board_h riot_all_own u =
        .ok (boardTable (if u "I2C_COUNT" = none then u.set "I2C_COUNT" zeroMacro else u)) ∧
      preprocessThen K riot_all_own board_h u =
        .ok (boardTable (if u "I2C_COUNT" = none then u.set "I2C_COUNT" zeroMacro
          else u)) := by
    intro K u hu
    constructor
    · unfold preprocessThen
      rw [preprocess_board_h_of_free K u hu]
      simp only
      rw [preprocess_riot_all_own, boardTable_default_comm]
    · unfold preprocessThen
      rw [preprocess_riot_all_own]
      simp only
      rw [preprocess_board_h_of_free K _ (default_free u hu)]
  have whole : ∀ u : MacroTable,
      (∀ n ∈ uartNames, u n = none ∨ u n = some irrelevantMacro) →
      preprocessThen inertHeaders board_h riot_all_h u =
        .ok (boardTable (if u "I2C_COUNT" = none then u.set "I2C_COUNT" zeroMacro else u)) ∧
      preprocessThen inertHeaders riot_all_h board_h u =
        .ok (boardTable (if u "I2C_COUNT" = none then u.set "I2C_COUNT" zeroMacro
          else u)) := by
    intro u hu
    constructor
    · unfold preprocessThen
      rw [preprocess_board_h_of_free inertHeaders u hu]
      simp only
      rw [preprocess_riot_all_h_inert, boardTable_default_comm]
    · unfold preprocessThen
      rw [preprocess_riot_all_h_inert]
      simp only
      rw [preprocess_board_h_of_free inertHeaders _ (default_free u hu)]
  have final : boardTable (if MacroTable.empty "I2C_COUNT" = none then
        MacroTable.empty.set "I2C_COUNT" zeroMacro else MacroTable.empty) =
      (fun x =>
        if x ∈ ["UART_STDIO_DEV", "UART_STDIO_BAUDRATE", "UART_STDIO_RX_BUFSIZE"] then
          some ⟨none, [⟨.ident, "irrelevant", false⟩]⟩
        else if x = "I2C_COUNT" then some ⟨none, [⟨.number, "0", false⟩]⟩
        else none) := by
    funext x
    by_cases h1 : x = "UART_STDIO_DEV"
    · subst h1
      rfl
    · by_cases h2 : x = "UART_STDIO_BAUDRATE"
      · subst h2
        rfl
      · by_cases h3 : x = "UART_STDIO_RX_BUFSIZE"
        · subst h3
          rfl
        · by_cases h4 : x = "I2C_COUNT"
          · subst h4
            rfl
          · simp [boardTable, MacroTable.set, MacroTable.empty, h1, h2, h3, h4]
  refine ⟨⟨_, (own H t free).1, (own H t free).2⟩,
    ⟨_, (whole t free).1, (whole t free).2⟩, ?_, ?_⟩
  · rw [(whole MacroTable.empty efree).1, final]
  · rw [(whole MacroTable.empty efree).2, final]

set_option maxRecDepth 100000 in
/-- Witness for C8: `board.h` is processed without conflict from the table
without any definition. -/
theorem board_h_riot_all_h_commute_witness :
    preprocess inertHeaders board_h MacroTable.empty = .ok (boardTable MacroTable.empty) ∧
    ∃ t2, preprocessThen inertHeaders board_h riot_all_h MacroTable.empty = .ok t2 ∧
      preprocessThen inertHeaders riot_all_h board_h MacroTable.empty = .ok t2 :=
  ⟨rfl,
    (board_h_riot_all_h_commute inertHeaders MacroTable.empty (boardTable MacroTable.empty)
      rfl).2.1⟩

end Cpp
